import Mathlib

/-!
Verification of the shouldupdate tool: a version tracker that stores a
mapping from application identifiers to recorded version strings and, on
request, queries a release-hosting API for the latest tag and compares it
lexicographically with the recorded version.

Strings are modelled as Lean `String` (lists of characters). Go compares
strings byte-wise over their UTF-8 encoding; for valid UTF-8 this order
coincides with lexicographic order on code points, which is the order on
Lean `String`. The HTTP layer and the TOML codec are external to the
repository and are modelled abstractly: an HTTP exchange is a function from
the request URL to an abstract result, and the codec is a pair of encode
and decode functions.
-/

/-- Models `strings.Contains(s, "/")` from the Go standard library, as used
in `getLatestVersionGitHubImpl` and `checkAppVersion`: the single character
slash occurs in `s`. -/
def containsSlash (s : String) : Bool :=
  s.data.contains '/'

/-- Models `strings.TrimPrefix(s, "v")`: removes one leading `v` when
present, otherwise returns `s` unchanged. -/
def trimPrefixV (s : String) : String :=
  match s.data with
  | 'v' :: rest => String.mk rest
  | _ => s

/-- One character is strictly below another in code-point order. Go
compares strings byte-wise over UTF-8, which agrees with code-point order
for valid UTF-8 text. -/
def charLt (a b : Char) : Bool :=
  decide (a < b)

/-- Lexicographic strict order on character lists, the order Go string
comparison `<` and `>` denote. -/
def listLt : List Char → List Char → Bool
  | [], [] => false
  | [], _ :: _ => true
  | _ :: _, [] => false
  | a :: as, b :: bs =>
    if charLt a b then true
    else if charLt b a then false
    else listLt as bs

/-- Go string comparison `a < b` (equivalently `b > a`). -/
def goLess (a b : String) : Bool :=
  listLt a.data b.data

/-- The relevant parts of the GitHub API JSON response, mirroring the Go
struct `GitHubReleaseInfo`. -/
structure GitHubReleaseInfo where
  tag_name : String
  name : String
  body : String
  html_url : String
  deriving Repr, DecidableEq

/-- The GitHub error body shape decoded on a non-200 response, mirroring
the anonymous Go struct with fields `Message` and `DocumentationURL`. -/
structure GhApiError where
  message : String
  documentation_url : String
  deriving Repr, DecidableEq

/-- An HTTP response body, abstracted to the two decodings the code
attempts: decoding as a release object (200 path) and decoding as a GitHub
error object (non-200 path). `none` means the JSON decoder fails on that
shape. -/
structure RespBody where
  decodeRelease : Option GitHubReleaseInfo
  decodeErrorInfo : Option GhApiError
  deriving Repr, DecidableEq

/-- The outcome of attempting one HTTP exchange for a given URL: building
the request can fail before anything is sent (`http.NewRequest` rejects
URLs with invalid percent escapes or control characters — no request is
issued then), the transport can fail after the request is sent but before
a response is obtained, or a response with a status code and body
arrives. -/
inductive HttpResult where
  | buildError (msg : String)
  | transportError (msg : String)
  | response (statusCode : Nat) (body : RespBody)
  deriving Repr, DecidableEq

/-- The value produced by one call of the release lookup: the returned
version-or-error, together with the list of request URLs issued (the real
code issues at most one HTTP GET; an empty list means no network access
occurred). -/
structure LookupResult where
  result : Except String String
  requests : List String
  deriving Repr

/-- The endpoint URL constructed by `getLatestVersionGitHubImpl`:
the default API root is used when `apiBaseURL` is empty. -/
def releaseURL (apiBaseURL appIdentifier : String) : String :=
  (if apiBaseURL == "" then "https://api.github.com" else apiBaseURL)
    ++ "/repos/" ++ appIdentifier ++ "/releases/latest"

/-- Embedding of `getLatestVersionGitHubImpl` from the Go source. The HTTP
layer is abstracted as `doRequest` from the request URL to an
`HttpResult`. Mirrors the source in order: identifier validation before URL
construction, URL construction, the `http.NewRequest` error branch (which
fires for URLs with invalid percent escapes or control characters, issuing
no request), one GET, the transport-error branch, the non-200 branch with
the GitHub error body attempted and a URL fallback, the JSON decode
branch, the empty `tag_name` branch, and finally the `v`-stripping of the
tag. -/
def getLatestVersionGitHubImpl (appIdentifier apiBaseURL : String)
    (doRequest : String → HttpResult) : LookupResult :=
  if containsSlash appIdentifier = false then
    { result := .error ("invalid application identifier: expected \x27owner/repo\x27, got \x27"
        ++ appIdentifier ++ "\x27")
      requests := [] }
  else
    let url := releaseURL apiBaseURL appIdentifier
    match doRequest url with
    | .buildError msg =>
      { result := .error ("internal error creating request for " ++ appIdentifier
          ++ ": " ++ msg)
        requests := [] }
    | .transportError msg =>
      { result := .error ("network error fetching release info for " ++ appIdentifier
          ++ " from " ++ url ++ ": " ++ msg)
        requests := [url] }
    | .response statusCode body =>
      if statusCode ≠ 200 then
        let base := "GitHub API error for " ++ appIdentifier
          ++ " (status " ++ toString statusCode ++ ")"
        let msg :=
          match body.decodeErrorInfo with
          | some gh =>
            if gh.message ≠ "" then
              base ++ ": " ++ gh.message
                ++ (if gh.documentation_url ≠ ""
                    then " (see " ++ gh.documentation_url ++ ")" else "")
            else
              base ++ " (URL: " ++ url ++ ")"
          | none => base ++ " (URL: " ++ url ++ ")"
        { result := .error msg, requests := [url] }
      else
        match body.decodeRelease with
        | none =>
          { result := .error ("error decoding JSON response for " ++ appIdentifier
              ++ " from " ++ url)
            requests := [url] }
        | some releaseInfo =>
          if releaseInfo.tag_name == "" then
            { result := .error ("no version tag (tag_name) found in the latest release for "
                ++ appIdentifier ++ " (URL: " ++ url ++ ")")
              requests := [url] }
          else
            { result := .ok (trimPrefixV releaseInfo.tag_name), requests := [url] }

/-- The report `checkAppVersion` produces for one application. -/
inductive CheckOutcome where
  | skipped
  | failed (err : String)
  | upToDate (current latest : String)
  | updateAvailable (current latest : String)
  | versionDiscrepancy (current latest : String)
  deriving Repr, DecidableEq

/-- Embedding of `checkAppVersion` from main.go. `fetch` models the
package-level function variable `getLatestVersion` applied with an empty
API base. Identifiers without a slash are skipped; a lookup failure is
reported; otherwise the latest version is compared with the recorded one by
string equality and lexicographic order (Go `>` on strings). -/
def checkAppVersion (fetch : String → Except String String)
    (appName currentVersion : String) : CheckOutcome :=
  if containsSlash appName = false then
    .skipped
  else
    match fetch appName with
    | .error e => .failed e
    | .ok latestVersion =>
      if latestVersion == currentVersion then
        .upToDate currentVersion latestVersion
      else if goLess currentVersion latestVersion then
        .updateAvailable currentVersion latestVersion
      else
        .versionDiscrepancy currentVersion latestVersion

/-- The stored configuration, Go type `Config map[string]string`, modelled
as an association list keyed by application identifier. Keys are unique in
any mapping loaded from the store; Go map iteration order is arbitrary and
is modelled by the list order. -/
abbrev Config := List (String × String)

/-- Embedding of the check-all loop in `handleCheckCmd` (the branch taken
when no specific application is named): `checkAppVersion` is invoked once
per tracked entry, in iteration order. -/
def handleCheckCmdAll (fetch : String → Except String String)
    (config : Config) : List CheckOutcome :=
  config.map (fun p => checkAppVersion fetch p.1 p.2)

/-- The state of the backing file at the configured path: absent, present
but unreadable (a read returns an I/O or permission error), or present with
readable content. -/
inductive FileState where
  | absent
  | unreadable
  | content (data : String)
  deriving Repr, DecidableEq

/-- The classified failures of the Version Store: the backing file exists
but reading it fails, or its content does not parse as the expected
structured format. -/
inductive ConfigError where
  | readError
  | parseError
  deriving Repr, DecidableEq

/-- Embedding of `loadConfig`: a missing file yields the empty mapping with
no error; a read failure and a parse failure are classified failures with
no partial mapping. `dec` models `toml.Unmarshal` into a string-to-string
map; `none` means the decoder rejects the content. -/
def loadConfig (dec : String → Option Config) (file : FileState) :
    Except ConfigError Config :=
  match file with
  | .absent => .ok []
  | .unreadable => .error .readError
  | .content data =>
    match dec data with
    | none => .error .parseError
    | some config => .ok config

/-- Embedding of the successful path of `saveConfig`: the full mapping is
serialized (`enc` models `toml.Marshal`) and the backing file is
overwritten in full with the result. Serialization, directory-creation and
write failures abort the command with an error before the file changes and
are not modelled. -/
def saveConfig (enc : Config → String) (config : Config) : FileState :=
  .content (enc config)

/-- Models `delete(config, appName)` on the Go map: the binding for `k` is
removed, every other binding is untouched. -/
def eraseKey (config : Config) (k : String) : Config :=
  config.filter (fun p => !(p.1 == k))

/-- What `handleRemoveCmd` reports. -/
inductive RemoveOutcome where
  | loadFailed (e : ConfigError)
  | notFound
  | removed
  deriving Repr, DecidableEq

/-- Embedding of `handleRemoveCmd` from main.go as a transformer of the
backing-file state: load the store; on a load failure report it and leave
the file alone; when the identifier is not present report that nothing is
removed, without invoking save; otherwise delete the binding and save the
mutated mapping. -/
def handleRemoveCmd (enc : Config → String) (dec : String → Option Config)
    (file : FileState) (appName : String) : FileState × RemoveOutcome :=
  match loadConfig dec file with
  | .error e => (file, .loadFailed e)
  | .ok config =>
    if (config.lookup appName).isSome = false then
      (file, .notFound)
    else
      (saveConfig enc (eraseKey config appName), .removed)

/-- A concrete miniature codec used to instantiate the abstract TOML codec
in witnesses. Modelled from the spec: the structured text format of the
backing file, a flat mapping of identifier-string to version-string
key/value pairs with round-trip fidelity; one `key=value` line per binding
here. Splits a character list at every occurrence of `sep`. -/
def splitOnChar (sep : Char) : List Char → List (List Char)
  | [] => [[]]
  | c :: cs =>
    let rest := splitOnChar sep cs
    if c == sep then [] :: rest
    else
      match rest with
      | [] => [[c]]
      | l :: ls => (c :: l) :: ls

/-- Encoding half of the miniature codec: each binding becomes a
`key=value` line. -/
def miniEnc (config : Config) : String :=
  String.join (config.map (fun p => p.1 ++ "=" ++ p.2 ++ "\n"))

/-- Decoding half of the miniature codec: one binding per nonempty line,
split at the equals sign. -/
def miniDec (s : String) : Option Config :=
  ((splitOnChar '\n' s.data).filter (fun l => !l.isEmpty)).mapM
    (fun line =>
      match splitOnChar '=' line with
      | [k, v] => some (String.mk k, String.mk v)
      | _ => none)

/-- The characters of `needle` occur contiguously inside the characters of
`hay`: the substring-containment property the error-message claims are
stated with. -/
def strContains (hay needle : String) : Prop :=
  ∃ l r, hay.data = l ++ needle.data ++ r

theorem strContains_append_right (a b : String) : strContains (a ++ b) b :=
  ⟨a.data, [], by simp [String.data_append]⟩

theorem strContains_append_left (a b : String) : strContains (a ++ b) a :=
  ⟨[], b.data, by simp [String.data_append]⟩

theorem strContains_extend_right {h n : String} (t : String)
    (hc : strContains h n) : strContains (h ++ t) n := by
  obtain ⟨l, r, hl⟩ := hc
  exact ⟨l, r ++ t.data, by simp [String.data_append, hl]⟩

theorem strContains_extend_left {h n : String} (t : String)
    (hc : strContains h n) : strContains (t ++ h) n := by
  obtain ⟨l, r, hl⟩ := hc
  exact ⟨t.data ++ l, r, by simp [String.data_append, hl]⟩

theorem listLt_trichotomy (as bs : List Char) :
    listLt as bs = true ∨ as = bs ∨ listLt bs as = true := by
  induction as generalizing bs with
  | nil =>
    cases bs with
    | nil => exact .inr (.inl rfl)
    | cons b bs => exact .inl rfl
  | cons a as ih =>
    cases bs with
    | nil => exact .inr (.inr rfl)
    | cons b bs =>
      rcases lt_trichotomy a b with hab | hab | hab
      · left
        simp [listLt, charLt, hab]
      · subst hab
        rcases ih bs with h2 | h2 | h2
        · left
          simp [listLt, charLt, h2]
        · subst h2
          exact .inr (.inl rfl)
        · right; right
          simp [listLt, charLt, h2]
      · right; right
        simp [listLt, charLt, hab]

theorem goLess_trichotomy (a b : String) :
    goLess a b = true ∨ a = b ∨ goLess b a = true := by
  rcases listLt_trichotomy a.data b.data with h | h | h
  · exact .inl h
  · exact .inr (.inl (String.ext h))
  · exact .inr (.inr h)

/-- Claim C1: for every tracked application with recorded version
`current` and every successful lookup result `latest`, `checkAppVersion`
reports exactly one of three outcomes determined by plain lexicographic
string comparison: up to date when `latest` equals `current`, update
available when `latest` is lexicographically greater, and version
discrepancy when `latest` is lexicographically less. -/
theorem checkAppVersion_three_outcomes
    (fetch : String → Except String String) (appName current latest : String)
    (hs : containsSlash appName = true) (hf : fetch appName = .ok latest) :
    (latest = current ∧
      checkAppVersion fetch appName current = .upToDate current latest)
    ∨ (goLess current latest = true ∧
      checkAppVersion fetch appName current = .updateAvailable current latest)
    ∨ (goLess latest current = true ∧
      checkAppVersion fetch appName current = .versionDiscrepancy current latest) := by
  by_cases he : latest = current
  · subst he
    exact .inl ⟨rfl, by simp [checkAppVersion, hs, hf]⟩
  · by_cases hlt : goLess current latest = true
    · exact .inr (.inl ⟨hlt, by simp [checkAppVersion, hs, hf, he, hlt]⟩)
    · have hgt : goLess latest current = true := by
        rcases goLess_trichotomy latest current with h | h | h
        · exact h
        · exact absurd h he
        · exact absurd h hlt
      exact .inr (.inr ⟨hgt, by simp [checkAppVersion, hs, hf, he, hlt]⟩)

/-- Claim C1 witness: the theorem applied at a concrete batch entry. -/
theorem checkAppVersion_three_outcomes_witness :
    (("1.1.0" : String) = "1.0.0" ∧
      checkAppVersion (fun _ => .ok "1.1.0") "owner/repo" "1.0.0"
        = .upToDate "1.0.0" "1.1.0")
    ∨ (goLess "1.0.0" "1.1.0" = true ∧
      checkAppVersion (fun _ => .ok "1.1.0") "owner/repo" "1.0.0"
        = .updateAvailable "1.0.0" "1.1.0")
    ∨ (goLess "1.1.0" "1.0.0" = true ∧
      checkAppVersion (fun _ => .ok "1.1.0") "owner/repo" "1.0.0"
        = .versionDiscrepancy "1.0.0" "1.1.0") :=
  checkAppVersion_three_outcomes (fun _ => .ok "1.1.0") "owner/repo"
    "1.0.0" "1.1.0" (by decide) rfl

/-- Claim C2: checking all tracked applications processes every tracked
identifier exactly once: the report list has one entry per tracked entry,
and the report at each position is exactly the check of the entry at that
position, whatever the other entries are (an entry that is skipped or
whose lookup fails does not change any other position). -/
theorem handleCheckCmdAll_processes_each_entry
    (fetch : String → Except String String) (config : Config) :
    (handleCheckCmdAll fetch config).length = config.length ∧
    ∀ i : Nat, (handleCheckCmdAll fetch config)[i]? =
      (config[i]?).map (fun p => checkAppVersion fetch p.1 p.2) := by
  constructor
  · simp [handleCheckCmdAll]
  · intro i
    simp [handleCheckCmdAll, List.getElem?_map]

/-- Claim C3: for every HTTP 200 response whose body parses with a
non-empty `tag_name` field, the release lookup succeeds and returns the
tag with exactly one leading literal `v` removed when the tag begins with
`v`, and the tag unchanged otherwise; in particular `v1.2.3` yields
`1.2.3`, `2.0.0` yields `2.0.0`, and `vv1` yields `v1`. -/
theorem lookup_success_strips_single_v
    (appIdentifier apiBaseURL : String) (doRequest : String → HttpResult)
    (body : RespBody) (info : GitHubReleaseInfo)
    (hs : containsSlash appIdentifier = true)
    (hr : doRequest (releaseURL apiBaseURL appIdentifier) = .response 200 body)
    (hd : body.decodeRelease = some info)
    (ht : info.tag_name ≠ "") :
    (getLatestVersionGitHubImpl appIdentifier apiBaseURL doRequest).result
      = .ok (match info.tag_name.data with
             | 'v' :: rest => String.mk rest
             | _ => info.tag_name)
    ∧ trimPrefixV "v1.2.3" = "1.2.3"
    ∧ trimPrefixV "2.0.0" = "2.0.0"
    ∧ trimPrefixV "vv1" = "v1" := by
  refine ⟨?_, by decide, by decide, by decide⟩
  simp [getLatestVersionGitHubImpl, hs, hr, hd, ht, trimPrefixV]

/-- Claim C3 witness: the theorem applied to a concrete 200 response with
tag `v1.2.3`. -/
theorem lookup_success_strips_single_v_witness :
    (getLatestVersionGitHubImpl "owner/repo" ""
        (fun _ => .response 200 ⟨some ⟨"v1.2.3", "Release 1.2.3", "", ""⟩, none⟩)).result
      = .ok (match ("v1.2.3" : String).data with
             | 'v' :: rest => String.mk rest
             | _ => ("v1.2.3" : String))
    ∧ trimPrefixV "v1.2.3" = "1.2.3"
    ∧ trimPrefixV "2.0.0" = "2.0.0"
    ∧ trimPrefixV "vv1" = "v1" :=
  lookup_success_strips_single_v "owner/repo" ""
    (fun _ => .response 200 ⟨some ⟨"v1.2.3", "Release 1.2.3", "", ""⟩, none⟩)
    ⟨some ⟨"v1.2.3", "Release 1.2.3", "", ""⟩, none⟩
    ⟨"v1.2.3", "Release 1.2.3", "", ""⟩ (by decide) rfl rfl (by decide)

/-- Claim C4: for every identifier without a `/`, the release lookup
returns the validation failure immediately and issues no request at all —
the outcome does not even depend on the HTTP client, and the request list
is empty. -/
theorem lookup_no_slash_no_request
    (appIdentifier apiBaseURL : String) (doRequest : String → HttpResult)
    (hs : containsSlash appIdentifier = false) :
    getLatestVersionGitHubImpl appIdentifier apiBaseURL doRequest =
      { result := .error ("invalid application identifier: expected \x27owner/repo\x27, got \x27"
          ++ appIdentifier ++ "\x27")
        requests := [] } := by
  simp [getLatestVersionGitHubImpl, hs]

/-- Claim C4 witness: the theorem applied to the identifier `ownerrepo`
with a client that would answer every request. -/
theorem lookup_no_slash_no_request_witness :
    getLatestVersionGitHubImpl "ownerrepo" ""
        (fun _ => .response 200 ⟨some ⟨"v1.0.0", "", "", ""⟩, none⟩) =
      { result := .error ("invalid application identifier: expected \x27owner/repo\x27, got \x27"
          ++ "ownerrepo" ++ "\x27")
        requests := [] } :=
  lookup_no_slash_no_request "ownerrepo" ""
    (fun _ => .response 200 ⟨some ⟨"v1.0.0", "", "", ""⟩, none⟩) (by decide)

/-- Claim C9: a 200 response whose body parses with `tag_name` exactly
`v` makes the lookup succeed with the empty string: the non-emptiness
check runs on the raw tag before the `v` is stripped. -/
theorem lookup_tag_v_empty_version
    (appIdentifier apiBaseURL : String) (doRequest : String → HttpResult)
    (body : RespBody) (info : GitHubReleaseInfo)
    (hs : containsSlash appIdentifier = true)
    (hr : doRequest (releaseURL apiBaseURL appIdentifier) = .response 200 body)
    (hd : body.decodeRelease = some info)
    (ht : info.tag_name = "v") :
    (getLatestVersionGitHubImpl appIdentifier apiBaseURL doRequest).result
      = .ok "" := by
  have hv : trimPrefixV "v" = "" := rfl
  simp [getLatestVersionGitHubImpl, hs, hr, hd, ht, hv]

/-- Claim C9 witness: the theorem applied to a concrete 200 response with
tag `v`. -/
theorem lookup_tag_v_empty_version_witness :
    (getLatestVersionGitHubImpl "owner/repo" ""
        (fun _ => .response 200 ⟨some ⟨"v", "", "", ""⟩, none⟩)).result
      = .ok "" :=
  lookup_tag_v_empty_version "owner/repo" ""
    (fun _ => .response 200 ⟨some ⟨"v", "", "", ""⟩, none⟩)
    ⟨some ⟨"v", "", "", ""⟩, none⟩ ⟨"v", "", "", ""⟩ (by decide) rfl rfl rfl

/-- An HTTP client used by the multi-slash counterexample: answers every
request with a 200 release response. -/
def multiSlashProbe : String → HttpResult :=
  fun _ => .response 200 ⟨some ⟨"v9.9.9", "", "", ""⟩, none⟩

/-- Claim C5 counterexample: the identifier `a/b/c` contains two `/`
characters, yet validation accepts it — a request is issued to the
constructed URL and the lookup even succeeds. The code only tests that at
least one `/` occurs, not that exactly one does. -/
theorem lookup_two_slashes_request_issued :
    ("a/b/c" : String).data.count '/' = 2
    ∧ (getLatestVersionGitHubImpl "a/b/c" "https://api.example"
        multiSlashProbe).requests
      = ["https://api.example/repos/a/b/c/releases/latest"]
    ∧ (getLatestVersionGitHubImpl "a/b/c" "https://api.example"
        multiSlashProbe).result = .ok "9.9.9" :=
  ⟨by decide, rfl, rfl⟩

/-- Claim C5 amended: validation fails, with no request issued, exactly
when the identifier contains no `/`; every identifier containing at least
one `/` — including identifiers with several — passes validation and
proceeds to request construction: one request is issued to the constructed
endpoint URL when the request can be built for that URL, and none when
request construction fails on it. -/
theorem lookup_any_slash_passes_validation
    (appIdentifier apiBaseURL : String) (doRequest : String → HttpResult)
    (hs : containsSlash appIdentifier = true) :
    (getLatestVersionGitHubImpl appIdentifier apiBaseURL doRequest).requests
      = (match doRequest (releaseURL apiBaseURL appIdentifier) with
         | .buildError _ => []
         | _ => [releaseURL apiBaseURL appIdentifier]) := by
  cases hdr : doRequest (releaseURL apiBaseURL appIdentifier) with
  | buildError m =>
    simp [getLatestVersionGitHubImpl, hs, hdr]
  | transportError m =>
    simp [getLatestVersionGitHubImpl, hs, hdr]
  | response status body =>
    by_cases h200 : status = 200
    · subst h200
      cases hdec : body.decodeRelease with
      | none => simp [getLatestVersionGitHubImpl, hs, hdr, hdec]
      | some info =>
        by_cases htag : info.tag_name = ""
        · simp [getLatestVersionGitHubImpl, hs, hdr, hdec, htag]
        · simp [getLatestVersionGitHubImpl, hs, hdr, hdec, htag]
    · simp [getLatestVersionGitHubImpl, hs, hdr, h200]

/-- Claim C5 amended witness: the theorem applied to an identifier with
two slashes, once with a client whose request builds and answers (one
request issued) and once with a client whose request construction fails
(none issued). -/
theorem lookup_any_slash_passes_validation_witness :
    ((getLatestVersionGitHubImpl "a/b/c" "https://api.example"
        multiSlashProbe).requests
      = (match multiSlashProbe (releaseURL "https://api.example" "a/b/c") with
         | .buildError _ => []
         | _ => [releaseURL "https://api.example" "a/b/c"]))
    ∧ ((getLatestVersionGitHubImpl "a/b%zz" "https://api.example"
        (fun _ => .buildError "invalid URL escape \x22%zz\x22")).requests
      = (match (fun _ => HttpResult.buildError "invalid URL escape \x22%zz\x22")
            (releaseURL "https://api.example" "a/b%zz") with
         | .buildError _ => []
         | _ => [releaseURL "https://api.example" "a/b%zz"])) :=
  ⟨lookup_any_slash_passes_validation "a/b/c" "https://api.example"
      multiSlashProbe (by decide),
   lookup_any_slash_passes_validation "a/b%zz" "https://api.example"
      (fun _ => .buildError "invalid URL escape \x22%zz\x22") (by decide)⟩

/-- Claim C8: every response with a status code other than 200 makes the
lookup fail with an API error whose message contains the numeric status
code and the identifier; when the body parses as a GitHub error object
with a non-empty message, that message is included (and the documentation
URL when present); otherwise the message falls back to including the
request URL. -/
theorem lookup_non200_api_error
    (appIdentifier apiBaseURL : String) (doRequest : String → HttpResult)
    (status : Nat) (body : RespBody)
    (hs : containsSlash appIdentifier = true)
    (hr : doRequest (releaseURL apiBaseURL appIdentifier) = .response status body)
    (hst : status ≠ 200) :
    ∃ msg,
      (getLatestVersionGitHubImpl appIdentifier apiBaseURL doRequest).result
        = .error msg
      ∧ strContains msg (toString status)
      ∧ strContains msg appIdentifier
      ∧ (∀ gh, body.decodeErrorInfo = some gh → gh.message ≠ "" →
          strContains msg gh.message ∧
          (gh.documentation_url ≠ "" → strContains msg gh.documentation_url))
      ∧ ((body.decodeErrorInfo = none ∨
          ∃ gh, body.decodeErrorInfo = some gh ∧ gh.message = "") →
          strContains msg (releaseURL apiBaseURL appIdentifier)) := by
  have hid : strContains
      ("GitHub API error for " ++ appIdentifier ++ " (status "
        ++ toString status ++ ")") appIdentifier :=
    strContains_extend_right _ (strContains_extend_right _
      (strContains_extend_right _ (strContains_append_right _ _)))
  have hstc : strContains
      ("GitHub API error for " ++ appIdentifier ++ " (status "
        ++ toString status ++ ")") (toString status) :=
    strContains_extend_right _ (strContains_append_right _ _)
  cases hde : body.decodeErrorInfo with
  | none =>
    refine ⟨"GitHub API error for " ++ appIdentifier ++ " (status "
        ++ toString status ++ ")" ++ " (URL: "
        ++ releaseURL apiBaseURL appIdentifier ++ ")", ?_, ?_, ?_, ?_, ?_⟩
    · simp [getLatestVersionGitHubImpl, hs, hr, hst, hde]
    · exact strContains_extend_right _ (strContains_extend_right _
        (strContains_extend_right _ hstc))
    · exact strContains_extend_right _ (strContains_extend_right _
        (strContains_extend_right _ hid))
    · intro gh hgh
      exact absurd hgh (by simp)
    · intro _
      exact strContains_extend_right _ (strContains_append_right _ _)
  | some gh =>
    by_cases hm : gh.message = ""
    · refine ⟨"GitHub API error for " ++ appIdentifier ++ " (status "
          ++ toString status ++ ")" ++ " (URL: "
          ++ releaseURL apiBaseURL appIdentifier ++ ")", ?_, ?_, ?_, ?_, ?_⟩
      · simp [getLatestVersionGitHubImpl, hs, hr, hst, hde, hm]
      · exact strContains_extend_right _ (strContains_extend_right _
          (strContains_extend_right _ hstc))
      · exact strContains_extend_right _ (strContains_extend_right _
          (strContains_extend_right _ hid))
      · intro gh2 hgh2 hne
        injection hgh2 with h12
        subst h12
        exact absurd hm hne
      · intro _
        exact strContains_extend_right _ (strContains_append_right _ _)
    · refine ⟨"GitHub API error for " ++ appIdentifier ++ " (status "
          ++ toString status ++ ")" ++ ": " ++ gh.message
          ++ (if gh.documentation_url ≠ ""
              then " (see " ++ gh.documentation_url ++ ")" else ""),
          ?_, ?_, ?_, ?_, ?_⟩
      · simp [getLatestVersionGitHubImpl, hs, hr, hst, hde, hm]
      · exact strContains_extend_right _ (strContains_extend_right _
          (strContains_extend_right _ hstc))
      · exact strContains_extend_right _ (strContains_extend_right _
          (strContains_extend_right _ hid))
      · intro gh2 hgh2 _
        injection hgh2 with h12
        subst h12
        constructor
        · exact strContains_extend_right _ (strContains_append_right _ _)
        · intro hdoc
          rw [if_pos hdoc]
          exact strContains_extend_left _ (strContains_extend_right _
            (strContains_append_right _ _))
      · intro hcase
        rcases hcase with hnone | ⟨gh2, hgh2, hm2⟩
        · exact absurd hnone (by simp)
        · injection hgh2 with h12
          subst h12
          exact absurd hm2 hm

/-- Claim C8 witness: the theorem applied to a concrete 404 response whose
body parses with a non-empty message and a documentation URL. -/
theorem lookup_non200_api_error_witness :
    ∃ msg,
      (getLatestVersionGitHubImpl "owner/nonexistent_repo" ""
          (fun _ => .response 404
            ⟨none, some ⟨"Not Found", "https://docs.github.com"⟩⟩)).result
        = .error msg
      ∧ strContains msg (toString (404 : Nat))
      ∧ strContains msg "owner/nonexistent_repo"
      ∧ (∀ gh, (⟨none, some ⟨"Not Found", "https://docs.github.com"⟩⟩ :
            RespBody).decodeErrorInfo = some gh → gh.message ≠ "" →
          strContains msg gh.message ∧
          (gh.documentation_url ≠ "" → strContains msg gh.documentation_url))
      ∧ (((⟨none, some ⟨"Not Found", "https://docs.github.com"⟩⟩ :
            RespBody).decodeErrorInfo = none ∨
          ∃ gh, (⟨none, some ⟨"Not Found", "https://docs.github.com"⟩⟩ :
            RespBody).decodeErrorInfo = some gh ∧ gh.message = "") →
          strContains msg (releaseURL "" "owner/nonexistent_repo")) :=
  lookup_non200_api_error "owner/nonexistent_repo" ""
    (fun _ => .response 404 ⟨none, some ⟨"Not Found", "https://docs.github.com"⟩⟩)
    404 ⟨none, some ⟨"Not Found", "https://docs.github.com"⟩⟩
    (by decide) rfl (by decide)

/-- Claim C6: saving any mapping and then loading yields a mapping equal
to the one saved, whenever the serialization format round-trips — the
store passes the mapping through the codec and the file unchanged. -/
theorem save_load_roundtrip
    (enc : Config → String) (dec : String → Option Config) (m : Config)
    (h : dec (enc m) = some m) :
    loadConfig dec (saveConfig enc m) = .ok m := by
  simp [loadConfig, saveConfig, h]

/-- Claim C6 witness: the theorem applied with the miniature codec, once
to a mapping with spaces and punctuation in keys and values and once to
the empty mapping. -/
theorem save_load_roundtrip_witness :
    loadConfig miniDec (saveConfig miniEnc
        [("renoinn/shouldupdate", "1.0.0"), ("my app", "v2.0-rc (beta)")])
      = .ok [("renoinn/shouldupdate", "1.0.0"), ("my app", "v2.0-rc (beta)")]
    ∧ loadConfig miniDec (saveConfig miniEnc []) = .ok [] :=
  ⟨save_load_roundtrip miniEnc miniDec
      [("renoinn/shouldupdate", "1.0.0"), ("my app", "v2.0-rc (beta)")]
      (by decide),
   save_load_roundtrip miniEnc miniDec [] (by decide)⟩

/-- Claim C7: loading from a nonexistent file yields the empty mapping and
no error; a file that exists but cannot be read yields a classified read
failure, and one whose content does not parse yields a classified parse
failure, in both cases with no partial mapping. -/
theorem loadConfig_classification (dec : String → Option Config) :
    loadConfig dec .absent = .ok []
    ∧ loadConfig dec .unreadable = .error .readError
    ∧ ∀ d, dec d = none → loadConfig dec (.content d) = .error .parseError := by
  refine ⟨rfl, rfl, ?_⟩
  intro d hd
  simp [loadConfig, hd]

/-- Claim C7 witness: the theorem applied with a decoder that rejects a
concrete malformed content string. -/
theorem loadConfig_classification_witness :
    loadConfig (fun _ => none) .absent = .ok []
    ∧ loadConfig (fun _ => none) .unreadable = .error .readError
    ∧ loadConfig (fun _ => none) (.content "not a mapping") = .error .parseError :=
  ⟨(loadConfig_classification (fun _ => none)).1,
   (loadConfig_classification (fun _ => none)).2.1,
   (loadConfig_classification (fun _ => none)).2.2 "not a mapping" rfl⟩

theorem lookup_cons_ne {k k1 v1 : String} (es : Config) (h : k ≠ k1) :
    ((k1, v1) :: es).lookup k = es.lookup k := by
  rw [List.lookup_cons, show (k == k1) = false from beq_eq_false_iff_ne.mpr h]

theorem lookup_eraseKey (config : Config) (a k : String) :
    (eraseKey config a).lookup k = if k = a then none else config.lookup k := by
  induction config with
  | nil => simp [eraseKey]
  | cons p ps ih =>
    obtain ⟨k1, v1⟩ := p
    show (List.filter (fun p => !(p.1 == a)) ((k1, v1) :: ps)).lookup k = _
    rw [List.filter_cons]
    by_cases h1 : k1 = a
    · rw [if_neg (by simp [h1])]
      rw [show (List.filter (fun p => !(p.1 == a)) ps).lookup k
          = if k = a then none else ps.lookup k from ih]
      by_cases h2 : k = a
      · rw [if_pos h2, if_pos h2]
      · rw [if_neg h2, if_neg h2,
          lookup_cons_ne ps (fun hk => h2 (hk.trans h1))]
    · rw [if_pos (by simp [h1])]
      by_cases h2 : k = k1
      · subst h2
        rw [if_neg h1, List.lookup_cons_self, List.lookup_cons_self]
      · rw [lookup_cons_ne _ h2,
          show (List.filter (fun p => !(p.1 == a)) ps).lookup k
            = if k = a then none else ps.lookup k from ih]
        by_cases h3 : k = a
        · rw [if_pos h3, if_pos h3]
        · rw [if_neg h3, if_neg h3, lookup_cons_ne ps h2]

/-- Claim C10: removing an identifier that is not present leaves the
backing file exactly as it was — the save path is not reached and the
outcome says nothing was removed; removing a present identifier saves the
mapping with only that key deleted, every other binding unchanged. -/
theorem handleRemoveCmd_frame
    (enc : Config → String) (dec : String → Option Config)
    (file : FileState) (config : Config) (appName : String)
    (hload : loadConfig dec file = .ok config) :
    (config.lookup appName = none →
      handleRemoveCmd enc dec file appName = (file, .notFound))
    ∧ (∀ v, config.lookup appName = some v →
      handleRemoveCmd enc dec file appName
        = (saveConfig enc (eraseKey config appName), .removed)
      ∧ (eraseKey config appName).lookup appName = none
      ∧ ∀ k, k ≠ appName →
          (eraseKey config appName).lookup k = config.lookup k) := by
  constructor
  · intro hnone
    simp [handleRemoveCmd, hload, hnone]
  · intro v hv
    refine ⟨?_, ?_, ?_⟩
    · simp [handleRemoveCmd, hload, hv]
    · simpa using lookup_eraseKey config appName appName
    · intro k hk
      simpa [hk] using lookup_eraseKey config appName k

/-- Claim C10 witness: the theorem applied with the miniature codec, once
removing an absent identifier and once removing a present one. -/
theorem handleRemoveCmd_frame_witness :
    (handleRemoveCmd miniEnc miniDec
        (.content (miniEnc [("owner/app", "1.0.0")])) "ghost"
      = (.content (miniEnc [("owner/app", "1.0.0")]), .notFound))
    ∧ (handleRemoveCmd miniEnc miniDec
        (.content (miniEnc [("owner/app", "1.0.0"), ("other/app", "2.0.0")]))
        "owner/app"
      = (saveConfig miniEnc
          (eraseKey [("owner/app", "1.0.0"), ("other/app", "2.0.0")] "owner/app"),
         .removed)) := by
  constructor
  · exact (handleRemoveCmd_frame miniEnc miniDec
      (.content (miniEnc [("owner/app", "1.0.0")]))
      [("owner/app", "1.0.0")] "ghost" rfl).1 rfl
  · exact ((handleRemoveCmd_frame miniEnc miniDec
      (.content (miniEnc [("owner/app", "1.0.0"), ("other/app", "2.0.0")]))
      [("owner/app", "1.0.0"), ("other/app", "2.0.0")] "owner/app" rfl).2
      "1.0.0" rfl).1
